import Mathlib

/-!
# Verification of the txproto fan-out FIFO (`src/fifo_template.c`, packet instantiation)

A shallow embedding of the generic FIFO defined in `fifo_template.c` and
instantiated in `src/fifo_packet.c` (`RENAME(x) = sp_packet_x`,
`TYPE = AVPacket`, `CLONE_FN(x) = x ? av_packet_clone(x) : NULL`).

Modelling conventions:
* An item pointer `TYPE *` is an `Option α` (`none` = `NULL`); `CLONE_FN`
  produces an equal value (reference-count bumps are invisible to the
  queue's behaviour), so cloning is the identity on `Option α`.
* The queue `TYPE **queued` together with `num_queued` is a `List (Option α)`
  (head = `queued[0]` = oldest); the two are kept in sync by every code path.
* C `int` arithmetic is `Int` (values stay tiny, no overflow paths exist).
* A FIFO handle (`AVBufferRef *`) is an index into a table of FIFO states;
  `dests`/`sources` buffer lists are lists of such indices, `append` is list
  append and `sp_bufferlist_pop` with `find_ref_by_data` is `List.erase`
  (removal of the first identity match).
* `pthread` locking serialises the operations; the embedding is the
  sequential semantics of each call.  `pthread_cond_signal` has no effect
  on the state.  A `pthread_cond_wait` either blocks (modelled by a
  distinguished outcome) or, for the single non-looped wait in `push`,
  is modelled as returning (signalled or spurious wake), after which the
  code proceeds unconditionally.
* `av_fast_realloc` is assumed to succeed (no out-of-memory is generated
  inside the model); the error-propagation policy of the distribute loop
  is additionally embedded with the recursive results abstracted, so that
  its treatment of `AVERROR(ENOMEM)` can be stated.
-/

/-- Linux value of `AVERROR(EINVAL)` (`AVERROR(e) = -e`, `EINVAL = 22`). -/
def AVERROR_EINVAL : Int := -22

/-- Linux value of `AVERROR(EAGAIN)`: try-again. -/
def AVERROR_EAGAIN : Int := -11

/-- Linux value of `AVERROR(ENOMEM)`: out-of-memory. -/
def AVERROR_ENOMEM : Int := -12

/-- Linux value of `AVERROR(ENOBUFS)`: queue-full. -/
def AVERROR_ENOBUFS : Int := -105

/-- Modelled from the spec: the flag set `SPPacketFIFOFlags`
(declared in the missing header `libtxproto/fifo_packet.h`).  The spec gives
the members `BLOCK_NO_INPUT`, `BLOCK_MAX_OUTPUT`, `PULL_NO_BLOCK`, and the
code additionally tests `PULL_POKE`.  The C bitmask is modelled as a record
of booleans; `|=` sets a field, `&` reads one. -/
structure SPPacketFIFOFlags where
  block_no_input : Bool
  block_max_output : Bool
  pull_no_block : Bool
  pull_poke : Bool
deriving DecidableEq, Repr

/-- The empty flag set (`0`). -/
def noFlags : SPPacketFIFOFlags := ⟨false, false, false, false⟩

/-- Field-wise union of two flag sets (C bitwise `|`). -/
def SPPacketFIFOFlags.union (a b : SPPacketFIFOFlags) : SPPacketFIFOFlags :=
  ⟨a.block_no_input || b.block_no_input,
   a.block_max_output || b.block_max_output,
   a.pull_no_block || b.pull_no_block,
   a.pull_poke || b.pull_poke⟩

/-- The FIFO context `SNAME` (= `SPPacketFIFO`), lines 37-50 of
`fifo_template.c`.  `queued`/`num_queued` are fused into one list,
`queued_alloc_size` (a capacity hint for `av_fast_realloc`) carries no
behavioural content and is dropped, and the `pthread` primitives are
replaced by the sequential semantics.  `dests` and `sources` hold the
indices of the mirrored FIFOs. -/
structure SPPacketFIFO (α : Type) where
  queued : List (Option α)
  max_queued : Int
  block_flags : SPPacketFIFOFlags
  poked : Bool
  dests : List Nat
  sources : List Nat
deriving DecidableEq, Repr

/-- The C field `ctx->num_queued` (always equal to the length of `queued`). -/
def SPPacketFIFO.num_queued (f : SPPacketFIFO α) : Int :=
  (f.queued.length : Int)

/-- A table of FIFO states; a FIFO handle is an index into it. -/
abbrev FifoTable (α : Type) := List (SPPacketFIFO α)

/-- The distribute loop of `sp_packet_fifo_push` (lines 371-382), with the
result of each recursive destination push supplied by `pushFn`.  Walks the
destination indices in order; a recursive result of `AVERROR(ENOMEM)` halts
the iteration (`sp_bufferlist_iter_halt`) and is returned at once; any other
non-zero result is recorded in `err` only if `err` is still `0`. -/
def packet_fifo_push_dests (pushFn : FifoTable α → Nat → Option α → Int × FifoTable α) :
    FifoTable α → List Nat → Option α → Int → Int × FifoTable α
  | w, [], _, err => (err, w)
  | w, d :: rest, item, err =>
    let r := pushFn w d item
    if r.1 = AVERROR_ENOMEM then
      (r.1, r.2)
    else
      packet_fifo_push_dests pushFn r.2 rest item (if r.1 ≠ 0 ∧ err = 0 then r.1 else err)

/-- The push `sp_packet_fifo_push` (lines 332-388) on a FIFO table.  `fuel` bounds the
fan-out recursion depth (the mirror graph is a DAG by the caller contract, so
any `fuel` larger than its depth gives the C semantics; a cyclic graph
deadlocks in C and exhausts fuel here).  An index not in the table behaves as
the `!dst` null-handle check: return `0` untouched.

Structure, mirroring the source: if `max_queued == 0`, skip local enqueue and
distribute; if the item is non-null, the queue is bounded and over capacity
(`num_queued > max_queued + 1`), then without `BLOCK_MAX_OUTPUT` return
`AVERROR(ENOBUFS)` (skipping distribution, `goto unlock`), and with it the
single `pthread_cond_wait` is modelled as returning, after which the code
falls through to the enqueue; otherwise clone-append the item at the tail and
distribute to every destination. -/
def sp_packet_fifo_push : Nat → FifoTable α → Nat → Option α → Int × FifoTable α
  | 0, w, _, _ => (0, w)
  | Nat.succ fuel, w, i, item =>
    match w[i]? with
    | none => (0, w)
    | some f =>
      if f.max_queued = 0 then
        packet_fifo_push_dests (sp_packet_fifo_push fuel) w f.dests item 0
      else if item.isSome ∧ f.max_queued ≠ -1 ∧ f.num_queued > f.max_queued + 1
              ∧ ¬f.block_flags.block_max_output then
        (AVERROR_ENOBUFS, w)
      else
        let w' := w.set i { f with queued := f.queued ++ [item] }
        packet_fifo_push_dests (sp_packet_fifo_push fuel) w' f.dests item 0

/-- Iterated push: `n` successive pushes (of `items 0`, …, `items (n-1)` in order) into
FIFO `i` with no intervening pop; returns the list of the `n` return values
in order and the final table. -/
def sp_packet_fifo_push_iter (fuel : Nat) (w : FifoTable α) (i : Nat) (items : Nat → Option α) :
    Nat → List Int × FifoTable α
  | 0 => ([], w)
  | Nat.succ n =>
    let r := sp_packet_fifo_push_iter fuel w i items n
    let p := sp_packet_fifo_push fuel r.2 i (items n)
    (r.1 ++ [p.1], p.2)

/-- The predicate `sp_packet_fifo_is_full` (lines 250-264): `max_queued == 0` is always
full, `max_queued == -1` (or any negative) is never full, otherwise full iff
`num_queued > max_queued + 1`.  (The C function returns `int` 0/1 and returns
0 for a null handle.) -/
def sp_packet_fifo_is_full (src : SPPacketFIFO α) : Bool :=
  if src.max_queued = 0 then true
  else if 0 < src.max_queued then decide (src.num_queued > src.max_queued + 1)
  else false

/-- Outcome of one call of the pull template: either the call returns
(`err` value, `*dst` item, updated FIFO) without waiting, or it reaches
`pthread_cond_wait` on `cond_in` and blocks for an external event. -/
inductive PullOutcome (α : Type) where
  | ret (err : Int) (out : Option α) (fifo : SPPacketFIFO α)
  | blocks
deriving DecidableEq, Repr

/-- The pull template `packet_fifo_pull_flags_template` (lines 406-464), sequential semantics
(no external event during the call, so the flag re-check inside the loop sees
the same state).  With the queue empty: under `!block_no_input || pull_no_block`
return try-again with `*dst = NULL`; otherwise, if `poked` and `PULL_POKE` the
wait is skipped, `poked` is cleared and try-again returned; in the remaining
cases the call reaches `pthread_cond_wait` and blocks (when `poked` was set
without `PULL_POKE` it is cleared before re-entering the loop and blocking).
With a non-empty queue: `pop` takes the head and shifts the rest down
(signalling `cond_out` is stateless); `peek` clones the head and leaves the
FIFO untouched.  (The C function returns `0` with `*dst = NULL` for a null
handle.) -/
def packet_fifo_pull_flags_template (src : SPPacketFIFO α) (flags : SPPacketFIFOFlags)
    (pop : Bool) : PullOutcome α :=
  match src.queued with
  | [] =>
    if ¬src.block_flags.block_no_input ∨ flags.pull_no_block then
      .ret AVERROR_EAGAIN none src
    else if src.poked ∧ flags.pull_poke then
      .ret AVERROR_EAGAIN none { src with poked := false }
    else
      .blocks
  | x :: rest =>
    if pop then .ret 0 x { src with queued := rest }
    else .ret 0 x src

/-- Wrapper `sp_packet_fifo_pop_flags` (lines 466-469). -/
def sp_packet_fifo_pop_flags (src : SPPacketFIFO α) (flags : SPPacketFIFOFlags) :
    PullOutcome α :=
  packet_fifo_pull_flags_template src flags true

/-- Wrapper `sp_packet_fifo_peek_flags` (lines 478-481). -/
def sp_packet_fifo_peek_flags (src : SPPacketFIFO α) (flags : SPPacketFIFOFlags) :
    PullOutcome α :=
  packet_fifo_pull_flags_template src flags false

/-- Wrapper `sp_packet_fifo_pop` (lines 471-476): the template with flags `0x0` and
`pop = 1` (the C wrapper returns only the item). -/
def sp_packet_fifo_pop (src : SPPacketFIFO α) : PullOutcome α :=
  packet_fifo_pull_flags_template src noFlags true

/-- Wrapper `sp_packet_fifo_peek` (lines 483-488): the template with flags `0x0` and
`pop = 0`. -/
def sp_packet_fifo_peek (src : SPPacketFIFO α) : PullOutcome α :=
  packet_fifo_pull_flags_template src noFlags false

/-- Mirroring `sp_packet_fifo_mirror` (lines 115-144) on a FIFO table: append `src` to
`dst->sources`, then `dst` to `src->dests` (logging elided).  An index not in
the table behaves as the `!dst || !src` check: `AVERROR(EINVAL)`.  The second
lookup goes through the updated table so that `mirror(i, i)` aliases as the C
pointers do.  (The inner `none` arm is unreachable: `List.set` preserves
indices.) -/
def sp_packet_fifo_mirror (w : FifoTable α) (dst src : Nat) : Int × FifoTable α :=
  match w[dst]?, w[src]? with
  | some dst_ctx, some _ =>
    let w1 := w.set dst { dst_ctx with sources := dst_ctx.sources ++ [src] }
    match w1[src]? with
    | some src_ctx => (0, w1.set src { src_ctx with dests := src_ctx.dests ++ [dst] })
    | none => (AVERROR_EINVAL, w)
  | _, _ => (AVERROR_EINVAL, w)

/-- Unmirroring `sp_packet_fifo_unmirror` (lines 146-182): pop `dst` from `src->dests`
(first identity match via `find_ref_by_data`, i.e. `List.erase`), then `src`
from `dst->sources` (logging elided; the C `assert(...)` that a match exists
holds in every reachable mirrored state and erasing nothing is a no-op
here). -/
def sp_packet_fifo_unmirror (w : FifoTable α) (dst src : Nat) : Int × FifoTable α :=
  match w[dst]?, w[src]? with
  | some _, some src_ctx =>
    let w1 := w.set src { src_ctx with dests := src_ctx.dests.erase dst }
    match w1[dst]? with
    | some dst_ctx => (0, w1.set dst { dst_ctx with sources := dst_ctx.sources.erase src })
    | none => (AVERROR_EINVAL, w)
  | _, _ => (AVERROR_EINVAL, w)

/-- Split a character list at every comma (keeping empty pieces). -/
def packet_fifo_split : List Char → List (List Char)
  | [] => [[]]
  | c :: rest =>
    let r := packet_fifo_split rest
    if c = ',' then
      [] :: r
    else
      match r with
      | [] => [[c]]
      | t :: ts => (c :: t) :: ts

/-- Token list produced by the `strtok_r(copy, ",", ...)` loop of
`sp_packet_fifo_string_to_block_flags`: split at commas, empty tokens
skipped (`strtok_r` treats consecutive, leading and trailing delimiters as
one). -/
def packet_fifo_tokens (s : String) : List (List Char) :=
  (packet_fifo_split s.data).filter (fun t => !t.isEmpty)

/-- The token loop of `sp_packet_fifo_string_to_block_flags` (lines 313-326):
each recognised lowercase token `|=`s its flag into the accumulator; an
unrecognised token sets `err = AVERROR(EINVAL)` and jumps to `end`,
keeping the flags accumulated so far. -/
def packet_fifo_flags_loop : List (List Char) → SPPacketFIFOFlags → Int × SPPacketFIFOFlags
  | [], acc => (0, acc)
  | t :: rest, acc =>
    if t = "block_no_input".data then
      packet_fifo_flags_loop rest { acc with block_no_input := true }
    else if t = "block_max_output".data then
      packet_fifo_flags_loop rest { acc with block_max_output := true }
    else if t = "pull_no_block".data then
      packet_fifo_flags_loop rest { acc with pull_no_block := true }
    else
      (AVERROR_EINVAL, acc)

/-- The parser `sp_packet_fifo_string_to_block_flags` (lines 306-330): `*dst` starts at
`0` and the comma-separated tokens are folded in; returns the pair
(return value, final `*dst`). -/
def sp_packet_fifo_string_to_block_flags (in_str : String) : Int × SPPacketFIFOFlags :=
  packet_fifo_flags_loop (packet_fifo_tokens in_str) noFlags

/-- Whether a token is one of the three recognised flag names. -/
def packet_fifo_known_token (t : List Char) : Bool :=
  t == "block_no_input".data || t == "block_max_output".data || t == "pull_no_block".data

/-- The flag a recognised token denotes (`noFlags` for unknown ones). -/
def packet_fifo_token_flag (t : List Char) : SPPacketFIFOFlags :=
  if t = "block_no_input".data then { noFlags with block_no_input := true }
  else if t = "block_max_output".data then { noFlags with block_max_output := true }
  else if t = "pull_no_block".data then { noFlags with pull_no_block := true }
  else noFlags

/-- Union of the flags denoted by a token list. -/
def packet_fifo_tokens_flags (ts : List (List Char)) : SPPacketFIFOFlags :=
  ts.foldr (fun t acc => (packet_fifo_token_flag t).union acc) noFlags

/-- The first non-zero result in a list of per-destination push results
(`0` when all succeeded) — the value the spec's propagation policy says the
distribute loop hands back when no out-of-memory occurred. -/
def packet_fifo_first_error (rets : List Int) : Int :=
  (rets.find? (fun r => r != 0)).getD 0

/-- The error-and-attempt-count bookkeeping of the distribute loop
(lines 371-382) with the result of each recursive destination push
abstracted into the input list (one entry per destination, in iteration
order).  Returns the final `err` and how many destinations were attempted:
a result of `AVERROR(ENOMEM)` halts the iteration immediately, any other
non-zero result is recorded only if `err` is still `0`. -/
def packet_fifo_distribute_err : List Int → Int → Int × Nat
  | [], err => (err, 0)
  | ret :: rest, err =>
    if ret = AVERROR_ENOMEM then
      (ret, 1)
    else
      let r := packet_fifo_distribute_err rest (if ret ≠ 0 ∧ err = 0 then ret else err)
      (r.1, r.2 + 1)

/-! ## Helper lemmas -/

/-- One-step unfolding of `sp_packet_fifo_push` at a valid handle. -/
theorem push_succ {α : Type} (fuel : Nat) (w : FifoTable α) (i : Nat) (f : SPPacketFIFO α)
    (item : Option α) (hw : w[i]? = some f) :
    sp_packet_fifo_push (fuel + 1) w i item =
      if f.max_queued = 0 then
        packet_fifo_push_dests (sp_packet_fifo_push fuel) w f.dests item 0
      else if item.isSome ∧ f.max_queued ≠ -1 ∧ f.num_queued > f.max_queued + 1
          ∧ ¬f.block_flags.block_max_output then
        (AVERROR_ENOBUFS, w)
      else
        packet_fifo_push_dests (sp_packet_fifo_push fuel)
          (w.set i { f with queued := f.queued ++ [item] }) f.dests item 0 := by
  have h0 : sp_packet_fifo_push (fuel + 1) w i item =
      match w[i]? with
      | none => (0, w)
      | some f =>
        if f.max_queued = 0 then
          packet_fifo_push_dests (sp_packet_fifo_push fuel) w f.dests item 0
        else if item.isSome ∧ f.max_queued ≠ -1 ∧ f.num_queued > f.max_queued + 1
            ∧ ¬f.block_flags.block_max_output then
          (AVERROR_ENOBUFS, w)
        else
          packet_fifo_push_dests (sp_packet_fifo_push fuel)
            (w.set i { f with queued := f.queued ++ [item] }) f.dests item 0 := rfl
  rw [h0, hw]

/-- The distribute loop does nothing on an empty destination list. -/
theorem push_dests_nil {α : Type} (pushFn : FifoTable α → Nat → Option α → Int × FifoTable α)
    (w : FifoTable α) (item : Option α) (err : Int) :
    packet_fifo_push_dests pushFn w [] item err = (err, w) := rfl

/-- One non-out-of-memory step of the distribute loop. -/
theorem push_dests_cons {α : Type} (pushFn : FifoTable α → Nat → Option α → Int × FifoTable α)
    (w : FifoTable α) (d : Nat) (rest : List Nat) (item : Option α) (err r : Int)
    (w' : FifoTable α) (h : pushFn w d item = (r, w')) (hne : r ≠ AVERROR_ENOMEM) :
    packet_fifo_push_dests pushFn w (d :: rest) item err
      = packet_fifo_push_dests pushFn w' rest item (if r ≠ 0 ∧ err = 0 then r else err) := by
  simp only [packet_fifo_push_dests, h]
  rw [if_neg hne]

/-- An out-of-memory step of the distribute loop halts it. -/
theorem push_dests_cons_oom {α : Type}
    (pushFn : FifoTable α → Nat → Option α → Int × FifoTable α)
    (w : FifoTable α) (d : Nat) (rest : List Nat) (item : Option α) (err : Int)
    (w' : FifoTable α) (h : pushFn w d item = (AVERROR_ENOMEM, w')) :
    packet_fifo_push_dests pushFn w (d :: rest) item err = (AVERROR_ENOMEM, w') := by
  simp only [packet_fifo_push_dests, h]
  simp

/-- A push into a destination-free FIFO that stores locally (non-zero
`max_queued`, capacity not exceeded for non-null items). -/
theorem push_one {α : Type} (f : SPPacketFIFO α) (item : Option α) (fuel : Nat)
    (hd : f.dests = []) (hm : f.max_queued ≠ 0)
    (hcap : f.max_queued = -1 ∨ f.num_queued ≤ f.max_queued + 1 ∨ item = none
      ∨ f.block_flags.block_max_output = true) :
    sp_packet_fifo_push (fuel + 1) [f] 0 item = (0, [{ f with queued := f.queued ++ [item] }]) := by
  rw [push_succ fuel [f] 0 f item rfl, if_neg hm, if_neg ?_, hd, push_dests_nil]
  · rfl
  · rintro ⟨hsome, hne, hgt, hbmo⟩
    rcases hcap with h | h | h | h
    · exact hne h
    · omega
    · rw [h] at hsome; simp at hsome
    · rw [h] at hbmo; simp at hbmo

/-- A push of a non-null item into an over-capacity bounded FIFO without
`BLOCK_MAX_OUTPUT` fails with queue-full and changes nothing. -/
theorem push_one_full {α : Type} (f : SPPacketFIFO α) (x : α) (fuel : Nat)
    (hm : f.max_queued ≠ 0) (hne : f.max_queued ≠ -1)
    (hgt : f.num_queued > f.max_queued + 1) (hbmo : f.block_flags.block_max_output = false) :
    sp_packet_fifo_push (fuel + 1) [f] 0 (some x) = (AVERROR_ENOBUFS, [f]) := by
  rw [push_succ fuel [f] 0 f (some x) rfl, if_neg hm,
    if_pos ⟨rfl, hne, hgt, by simp [hbmo]⟩]

/-- A null push into a destination-free FIFO with non-zero `max_queued`
inside a table: the capacity check is skipped and `NULL` is enqueued. -/
theorem push_none_at {α : Type} (w : FifoTable α) (i : Nat) (g : SPPacketFIFO α) (fuel : Nat)
    (hw : w[i]? = some g) (hd : g.dests = []) (hm : g.max_queued ≠ 0) :
    sp_packet_fifo_push (fuel + 1) w i none
      = (0, w.set i { g with queued := g.queued ++ [none] }) := by
  rw [push_succ fuel w i g none hw, if_neg hm, if_neg ?_, hd, push_dests_nil]
  rintro ⟨h, -⟩
  simp at h

/-! ## Claim C7 — `is_full` predicate -/

/-- A bounded FIFO (`max_queued = 1`) holding 3 items with `BLOCK_MAX_OUTPUT`
set: `is_full` already reports full, yet a push still stores an item. -/
def fullButPushable : SPPacketFIFO Nat :=
  ⟨[some 0, some 0, some 0], 1, ⟨false, true, false, false⟩, false, [], []⟩

/-- C7: `sp_packet_fifo_is_full` returns true iff `max_queued = 0`, or
`max_queued > 0` and `num_queued > max_queued + 1`; for `max_queued = -1`
(unbounded) it returns false.  Moreover an item can still be pushed while
`is_full` already reports true: with `BLOCK_MAX_OUTPUT` set the over-capacity
wait is woken and the push proceeds to store (the same condition without the
flag returns queue-full, see the capacity theorems). -/
theorem fifo_is_full_spec :
    (∀ f : SPPacketFIFO Nat,
      (sp_packet_fifo_is_full f = true ↔
        (f.max_queued = 0 ∨ (0 < f.max_queued ∧ f.num_queued > f.max_queued + 1)))
      ∧ (f.max_queued = -1 → sp_packet_fifo_is_full f = false))
    ∧ sp_packet_fifo_is_full fullButPushable = true
    ∧ sp_packet_fifo_push 1 [fullButPushable] 0 (some 5)
        = (0, [{ fullButPushable with queued := fullButPushable.queued ++ [some 5] }]) := by
  refine ⟨fun f => ⟨?_, ?_⟩, by decide, by decide⟩
  · unfold sp_packet_fifo_is_full
    split
    · simp [*]
    · split
      · simp only [decide_eq_true_eq]
        constructor
        · intro h; exact Or.inr ⟨by omega, h⟩
        · rintro (h | ⟨-, h⟩)
          · omega
          · exact h
      · simp only [Bool.false_eq_true, false_iff]
        rintro (h | ⟨h, -⟩) <;> omega
  · intro h
    unfold sp_packet_fifo_is_full
    rw [if_neg (by omega), if_neg (by omega)]

/-- Witness for C7 at `max_queued = -1`. -/
theorem fifo_is_full_spec_witness :
    sp_packet_fifo_is_full (⟨[some 1], -1, noFlags, false, [], []⟩ : SPPacketFIFO Nat) = false :=
  (fifo_is_full_spec.1 ⟨[some 1], -1, noFlags, false, [], []⟩).2 rfl

/-! ## Claim C8 — non-blocking pull on an empty queue -/

/-- C8: on an empty queue, if `BLOCK_NO_INPUT` is not set or the caller
passes `PULL_NO_BLOCK`, both pop and peek return try-again without blocking,
with `*dst = NULL` and the FIFO unchanged. -/
theorem pull_empty_nonblocking {α : Type} (f : SPPacketFIFO α) (flags : SPPacketFIFOFlags)
    (hq : f.queued = [])
    (h : f.block_flags.block_no_input = false ∨ flags.pull_no_block = true) :
    sp_packet_fifo_pop_flags f flags = .ret AVERROR_EAGAIN none f
    ∧ sp_packet_fifo_peek_flags f flags = .ret AVERROR_EAGAIN none f := by
  have hc : (¬f.block_flags.block_no_input ∨ flags.pull_no_block = true) := by
    rcases h with h | h
    · exact Or.inl (by simp [h])
    · exact Or.inr h
  obtain ⟨q, mq, bf, pk, ds, ss⟩ := f
  simp only at hq hc
  subst hq
  constructor <;>
    · simp only [sp_packet_fifo_pop_flags, sp_packet_fifo_peek_flags,
        packet_fifo_pull_flags_template]
      rw [if_pos hc]

/-- Witness for C8. -/
theorem pull_empty_nonblocking_witness :
    sp_packet_fifo_pop_flags (⟨[], -1, noFlags, false, [], []⟩ : SPPacketFIFO Nat) noFlags
      = .ret AVERROR_EAGAIN none ⟨[], -1, noFlags, false, [], []⟩ :=
  (pull_empty_nonblocking ⟨[], -1, noFlags, false, [], []⟩ noFlags rfl (Or.inl rfl)).1

/-! ## Claim C9 — peek leaves the FIFO unchanged -/

/-- C9: on a non-empty queue, peek (with any flags, so both `peek` and
`peek_flags`) returns `0` and a clone of the head, and the whole FIFO state —
`queued` (hence `num_queued`), `max_queued`, `block_flags`, `poked`, `dests`,
`sources` — is exactly the state before the call. -/
theorem peek_preserves_state {α : Type} (f : SPPacketFIFO α) (flags : SPPacketFIFOFlags)
    (x : Option α) (rest : List (Option α)) (hq : f.queued = x :: rest) :
    sp_packet_fifo_peek_flags f flags = .ret 0 x f
    ∧ sp_packet_fifo_peek f = .ret 0 x f := by
  obtain ⟨q, mq, bf, pk, ds, ss⟩ := f
  simp only at hq
  subst hq
  constructor <;>
    · simp [sp_packet_fifo_peek_flags, sp_packet_fifo_peek,
        packet_fifo_pull_flags_template]

/-- Witness for C9. -/
theorem peek_preserves_state_witness :
    sp_packet_fifo_peek_flags (⟨[some 9], 2, noFlags, false, [], []⟩ : SPPacketFIFO Nat) noFlags
      = .ret 0 (some 9) ⟨[some 9], 2, noFlags, false, [], []⟩ :=
  (peek_preserves_state ⟨[some 9], 2, noFlags, false, [], []⟩ noFlags (some 9) [] rfl).1

/-! ## Claim C3 — FIFO order -/

/-- C3: from an empty FIFO that buffers locally (`max_queued` unbounded or
positive; a `max_queued = 0` FIFO never stores, see the data model), three
successful pushes of `a`, `b`, `c` append at the tail in that order, and the
three subsequent pops return `a`, `b`, `c` from the head. -/
theorem fifo_push_pop_order {α : Type} (f : SPPacketFIFO α) (a b c : α) (fuel : Nat)
    (flags : SPPacketFIFOFlags)
    (hq : f.queued = []) (hd : f.dests = []) (hm : f.max_queued = -1 ∨ 0 < f.max_queued) :
    sp_packet_fifo_push (fuel + 1) [f] 0 (some a) = (0, [{ f with queued := [some a] }])
    ∧ sp_packet_fifo_push (fuel + 1) [{ f with queued := [some a] }] 0 (some b)
        = (0, [{ f with queued := [some a, some b] }])
    ∧ sp_packet_fifo_push (fuel + 1) [{ f with queued := [some a, some b] }] 0 (some c)
        = (0, [{ f with queued := [some a, some b, some c] }])
    ∧ sp_packet_fifo_pop_flags { f with queued := [some a, some b, some c] } flags
        = .ret 0 (some a) { f with queued := [some b, some c] }
    ∧ sp_packet_fifo_pop_flags { f with queued := [some b, some c] } flags
        = .ret 0 (some b) { f with queued := [some c] }
    ∧ sp_packet_fifo_pop_flags { f with queued := [some c] } flags
        = .ret 0 (some c) { f with queued := [] } := by
  have hm0 : f.max_queued ≠ 0 := by rcases hm with h | h <;> omega
  refine ⟨?_, ?_, ?_, ?_, ?_, ?_⟩
  · have := push_one f (some a) fuel hd hm0 ?_
    · rw [hq] at this
      simpa using this
    · rcases hm with h | h
      · exact Or.inl h
      · refine Or.inr (Or.inl ?_)
        simp [SPPacketFIFO.num_queued, hq]
        omega
  · have := push_one { f with queued := [some a] } (some b) fuel hd hm0 ?_
    · simpa using this
    · rcases hm with h | h
      · exact Or.inl h
      · refine Or.inr (Or.inl ?_)
        simp [SPPacketFIFO.num_queued]
        omega
  · have := push_one { f with queued := [some a, some b] } (some c) fuel hd hm0 ?_
    · simpa using this
    · rcases hm with h | h
      · exact Or.inl h
      · refine Or.inr (Or.inl ?_)
        simp [SPPacketFIFO.num_queued]
        omega
  · simp [sp_packet_fifo_pop_flags, packet_fifo_pull_flags_template]
  · simp [sp_packet_fifo_pop_flags, packet_fifo_pull_flags_template]
  · simp [sp_packet_fifo_pop_flags, packet_fifo_pull_flags_template]

/-- Witness for C3. -/
theorem fifo_push_pop_order_witness :
    sp_packet_fifo_push 1 [(⟨[], -1, noFlags, false, [], []⟩ : SPPacketFIFO Nat)] 0 (some 1)
      = (0, [⟨[some 1], -1, noFlags, false, [], []⟩])
    ∧ sp_packet_fifo_pop_flags
        (⟨[some 1, some 2, some 3], -1, noFlags, false, [], []⟩ : SPPacketFIFO Nat) noFlags
      = .ret 0 (some 1) ⟨[some 2, some 3], -1, noFlags, false, [], []⟩ := by
  have h := fifo_push_pop_order (⟨[], -1, noFlags, false, [], []⟩ : SPPacketFIFO Nat)
      1 2 3 0 noFlags rfl rfl (Or.inl rfl)
  exact ⟨h.1, h.2.2.2.1⟩

/-! ## Claim C1 — capacity policy -/

/-- From an empty bounded FIFO (`max_queued = n > 0`), the first `k ≤ n + 2`
pushes all succeed and fill the queue to length `k`. -/
theorem push_iter_fills {α : Type} (f : SPPacketFIFO α) (xs : Nat → α) (fuel n : Nat)
    (hq : f.queued = []) (hd : f.dests = [])
    (hnn : 0 < n) (hmq : f.max_queued = (n : Int)) :
    ∀ k, k ≤ n + 2 →
      sp_packet_fifo_push_iter (fuel + 1) [f] 0 (fun j => some (xs j)) k
        = (List.replicate k 0,
           [{ f with queued := (List.range k).map (fun j => some (xs j)) }]) := by
  intro k
  induction k with
  | zero =>
    intro _
    obtain ⟨q, mq, bf, pk, ds, ss⟩ := f
    simp only at hq
    subst hq
    simp [sp_packet_fifo_push_iter]
  | succ k ih =>
    intro hk
    have hk' : k ≤ n + 2 := by omega
    simp only [sp_packet_fifo_push_iter, ih hk']
    have hp := push_one { f with queued := (List.range k).map (fun j => some (xs j)) }
        (some (xs k)) fuel (by simpa using hd) (by simp [hmq]; try omega) ?_
    · rw [hp]
      rw [List.replicate_succ']
      simp [List.range_succ]
    · refine Or.inr (Or.inl ?_)
      simp [SPPacketFIFO.num_queued, hmq]
      omega

/-- C1 (amended): with `max_queued = N > 0` and `BLOCK_MAX_OUTPUT` unset,
the first `N + 2` pushes of non-null items with no intervening pop all
return 0 (the capacity check `num_queued > max_queued + 1` is evaluated
before storing), and it is the `(N + 3)`th push that returns queue-full. -/
theorem capacity_policy_amended {α : Type} (f : SPPacketFIFO α) (xs : Nat → α) (fuel n : Nat)
    (hq : f.queued = []) (hd : f.dests = [])
    (hbmo : f.block_flags.block_max_output = false)
    (hnn : 0 < n) (hmq : f.max_queued = (n : Int)) :
    (sp_packet_fifo_push_iter (fuel + 1) [f] 0 (fun j => some (xs j)) (n + 2)).1
      = List.replicate (n + 2) 0
    ∧ (sp_packet_fifo_push (fuel + 1)
        (sp_packet_fifo_push_iter (fuel + 1) [f] 0 (fun j => some (xs j)) (n + 2)).2
        0 (some (xs (n + 2)))).1 = AVERROR_ENOBUFS := by
  have h := push_iter_fills f xs fuel n hq hd hnn hmq (n + 2) (le_refl _)
  rw [h]
  refine ⟨rfl, ?_⟩
  rw [push_one_full { f with queued := (List.range (n + 2)).map (fun j => some (xs j)) }
    (xs (n + 2)) fuel (by simp [hmq]; try omega) (by simp [hmq]; try omega)
    (by simp [SPPacketFIFO.num_queued, hmq]; try omega) (by simpa using hbmo)]

/-- Witness for the amended C1 at `N = 2`: pushes 1-4 return 0, push 5
returns queue-full. -/
theorem capacity_policy_amended_witness :
    (sp_packet_fifo_push_iter 1 [(⟨[], 2, noFlags, false, [], []⟩ : SPPacketFIFO Nat)] 0
        (fun j => some j) 4).1 = List.replicate 4 0
    ∧ (sp_packet_fifo_push 1
        (sp_packet_fifo_push_iter 1 [(⟨[], 2, noFlags, false, [], []⟩ : SPPacketFIFO Nat)] 0
          (fun j => some j) 4).2 0 (some 4)).1 = AVERROR_ENOBUFS :=
  capacity_policy_amended (⟨[], 2, noFlags, false, [], []⟩ : SPPacketFIFO Nat)
    (fun j => j) 0 2 rfl rfl rfl (by omega) rfl

/-- C1 as stated is false: with `max_queued = 2` and no flags, the 4th push
(the claim's queue-full push) still returns 0, not `AVERROR(ENOBUFS)`. -/
theorem capacity_claim_counterexample :
    (sp_packet_fifo_push_iter 1 [(⟨[], 2, noFlags, false, [], []⟩ : SPPacketFIFO Nat)] 0
        (fun _ => some 1) 4).1 = [0, 0, 0, 0]
    ∧ (0 : Int) ≠ AVERROR_ENOBUFS := by
  decide

/-! ## Claim C2 — null pushes -/

/-- C2 (amended): a null push fans out to every mirrored destination and
skips the capacity check (it can never block or return queue-full), but it
IS enqueued locally as a null entry whenever `max_queued ≠ 0`; only a
`max_queued = 0` FIFO leaves its local queue unchanged.  Stated for a source
mirrored into two downstreams (the spec's fan-out scenario). -/
theorem null_push_fans_out_amended {α : Type} (s d1 d2 : SPPacketFIFO α) (fuel : Nat)
    (hsd : s.dests = [1, 2]) (h1d : d1.dests = []) (h2d : d2.dests = [])
    (h1m : d1.max_queued ≠ 0) (h2m : d2.max_queued ≠ 0) :
    sp_packet_fifo_push (fuel + 2) [s, d1, d2] 0 none =
      (0, [if s.max_queued = 0 then s else { s with queued := s.queued ++ [none] },
           { d1 with queued := d1.queued ++ [none] },
           { d2 with queued := d2.queued ++ [none] }]) := by
  have hstep : ∀ s0 : SPPacketFIFO α,
      packet_fifo_push_dests (sp_packet_fifo_push (fuel + 1)) [s0, d1, d2] [1, 2] none 0
        = (0, [s0, { d1 with queued := d1.queued ++ [none] },
               { d2 with queued := d2.queued ++ [none] }]) := by
    intro s0
    rw [push_dests_cons _ _ _ _ _ _ _ _
      (push_none_at [s0, d1, d2] 1 d1 fuel rfl h1d h1m) (by decide)]
    rw [push_dests_cons _ _ _ _ _ _ _ _
      (push_none_at _ 2 d2 fuel rfl h2d h2m) (by decide)]
    rfl
  rw [show fuel + 2 = (fuel + 1) + 1 from rfl,
    push_succ (fuel + 1) [s, d1, d2] 0 s none rfl]
  by_cases hs : s.max_queued = 0
  · rw [if_pos hs, hsd, hstep s, if_pos hs]
  · rw [if_neg hs, if_neg (by rintro ⟨h, -⟩; simp at h)]
    have hset : ([s, d1, d2] : FifoTable α).set 0 { s with queued := s.queued ++ [none] }
        = [{ s with queued := s.queued ++ [none] }, d1, d2] := rfl
    rw [hset, hsd, hstep _, if_neg hs]

/-- Witness for the amended C2. -/
theorem null_push_fans_out_amended_witness :
    sp_packet_fifo_push 2
        [(⟨[], -1, noFlags, false, [1, 2], []⟩ : SPPacketFIFO Nat),
         ⟨[], 3, noFlags, false, [], [0]⟩, ⟨[], -1, noFlags, false, [], [0]⟩] 0 none =
      (0, [⟨[none], -1, noFlags, false, [1, 2], []⟩,
           ⟨[none], 3, noFlags, false, [], [0]⟩, ⟨[none], -1, noFlags, false, [], [0]⟩]) := by
  have h := null_push_fans_out_amended (⟨[], -1, noFlags, false, [1, 2], []⟩ : SPPacketFIFO Nat)
    ⟨[], 3, noFlags, false, [], [0]⟩ ⟨[], -1, noFlags, false, [], [0]⟩ 0
    rfl rfl rfl (by decide) (by decide)
  simpa using h

/-- C2 as stated is false: a null push into an unbounded (`max_queued = -1`)
FIFO does enqueue locally — `num_queued` grows from 0 to 1. -/
theorem null_push_claim_counterexample :
    (sp_packet_fifo_push 1 [(⟨[], -1, noFlags, false, [], []⟩ : SPPacketFIFO Nat)] 0 none).2
        = [⟨[none], -1, noFlags, false, [], []⟩]
    ∧ SPPacketFIFO.num_queued (⟨[none], -1, noFlags, false, [], []⟩ : SPPacketFIFO Nat)
        ≠ SPPacketFIFO.num_queued (⟨[], -1, noFlags, false, [], []⟩ : SPPacketFIFO Nat) := by
  decide

/-! ## Claim C4 — mirror symmetry -/

/-- C4: for distinct FIFOs `dst` and `src` not yet linked (each appears at
most once in a peer's set, the documented invariant), `mirror(dst, src)`
returns 0 and makes `src` a member of `dst.sources` and `dst` a member of
`src.dests`; a subsequent `unmirror(dst, src)` returns 0 and removes both
memberships. -/
theorem mirror_unmirror_symmetry {α : Type} (w : FifoTable α) (dst src : Nat)
    (d0 s0 : SPPacketFIFO α)
    (hne : dst ≠ src) (hd : w[dst]? = some d0) (hs : w[src]? = some s0)
    (hnos : src ∉ d0.sources) (hnod : dst ∉ s0.dests) :
    (sp_packet_fifo_mirror w dst src).1 = 0
    ∧ (∃ d1 s1, ((sp_packet_fifo_mirror w dst src).2)[dst]? = some d1
        ∧ ((sp_packet_fifo_mirror w dst src).2)[src]? = some s1
        ∧ src ∈ d1.sources ∧ dst ∈ s1.dests)
    ∧ (sp_packet_fifo_unmirror (sp_packet_fifo_mirror w dst src).2 dst src).1 = 0
    ∧ (∃ d2 s2,
        ((sp_packet_fifo_unmirror (sp_packet_fifo_mirror w dst src).2 dst src).2)[dst]?
          = some d2
        ∧ ((sp_packet_fifo_unmirror (sp_packet_fifo_mirror w dst src).2 dst src).2)[src]?
          = some s2
        ∧ src ∉ d2.sources ∧ dst ∉ s2.dests) := by
  have hlen_dst : dst < w.length := by
    rcases List.getElem?_eq_some.mp hd with ⟨h, -⟩
    exact h
  have hlen_src : src < w.length := by
    rcases List.getElem?_eq_some.mp hs with ⟨h, -⟩
    exact h
  have hm : sp_packet_fifo_mirror w dst src
      = (0, (w.set dst { d0 with sources := d0.sources ++ [src] }).set src
              { s0 with dests := s0.dests ++ [dst] }) := by
    simp only [sp_packet_fifo_mirror, hd, hs, List.getElem?_set_ne hne]
  have hwm_dst : ((w.set dst { d0 with sources := d0.sources ++ [src] }).set src
      { s0 with dests := s0.dests ++ [dst] })[dst]?
      = some { d0 with sources := d0.sources ++ [src] } := by
    rw [List.getElem?_set_ne (Ne.symm hne), List.getElem?_set_self (by simpa using hlen_dst)]
  have hwm_src : ((w.set dst { d0 with sources := d0.sources ++ [src] }).set src
      { s0 with dests := s0.dests ++ [dst] })[src]?
      = some { s0 with dests := s0.dests ++ [dst] } := by
    rw [List.getElem?_set_self (by simpa using hlen_src)]
  have herase_d : (s0.dests ++ [dst]).erase dst = s0.dests := by
    rw [List.erase_append_right _ hnod]
    simp
  have herase_s : (d0.sources ++ [src]).erase src = d0.sources := by
    rw [List.erase_append_right _ hnos]
    simp
  have hu : sp_packet_fifo_unmirror ((w.set dst { d0 with sources := d0.sources ++ [src] }).set src
      { s0 with dests := s0.dests ++ [dst] }) dst src
      = (0, ((((w.set dst { d0 with sources := d0.sources ++ [src] }).set src
          { s0 with dests := s0.dests ++ [dst] }).set src s0).set dst d0)) := by
    simp only [sp_packet_fifo_unmirror, hwm_dst, hwm_src, herase_d]
    rw [List.getElem?_set_ne (Ne.symm hne), List.getElem?_set_ne (Ne.symm hne),
      List.getElem?_set_self (by simpa using hlen_dst)]
    simp only [herase_s]
  rw [hm]
  refine ⟨rfl, ⟨_, _, hwm_dst, hwm_src, by simp, by simp⟩, ?_, ?_⟩
  · rw [hu]
  · rw [hu]
    refine ⟨d0, s0, ?_, ?_, hnos, hnod⟩
    · rw [List.getElem?_set_self (by simpa using hlen_dst)]
    · rw [List.getElem?_set_ne hne, List.getElem?_set_self (by simpa using hlen_src)]

/-- Witness for C4. -/
theorem mirror_unmirror_symmetry_witness :
    (sp_packet_fifo_mirror
      [(⟨[], -1, noFlags, false, [], []⟩ : SPPacketFIFO Nat),
       ⟨[], 2, noFlags, false, [], []⟩] 0 1).1 = 0 := by
  have h := mirror_unmirror_symmetry
    [(⟨[], -1, noFlags, false, [], []⟩ : SPPacketFIFO Nat), ⟨[], 2, noFlags, false, [], []⟩]
    0 1 ⟨[], -1, noFlags, false, [], []⟩ ⟨[], 2, noFlags, false, [], []⟩
    (by decide) rfl rfl (by decide) (by decide)
  exact h.1

/-! ## Flag-string parsing helpers -/

theorem union_noFlags (a : SPPacketFIFOFlags) : a.union noFlags = a := by
  cases a
  simp [SPPacketFIFOFlags.union, noFlags]

theorem union_assoc (a b c : SPPacketFIFOFlags) :
    (a.union b).union c = a.union (b.union c) := by
  cases a; cases b; cases c
  simp [SPPacketFIFOFlags.union, Bool.or_assoc]

theorem set_bni (acc : SPPacketFIFOFlags) :
    { acc with block_no_input := true }
      = acc.union { noFlags with block_no_input := true } := by
  cases acc
  simp [SPPacketFIFOFlags.union, noFlags]

theorem set_bmo (acc : SPPacketFIFOFlags) :
    { acc with block_max_output := true }
      = acc.union { noFlags with block_max_output := true } := by
  cases acc
  simp [SPPacketFIFOFlags.union, noFlags]

theorem set_pnb (acc : SPPacketFIFOFlags) :
    { acc with pull_no_block := true }
      = acc.union { noFlags with pull_no_block := true } := by
  cases acc
  simp [SPPacketFIFOFlags.union, noFlags]

/-- A token list of recognised names folds to `0` and the union of their
flags over the starting accumulator. -/
theorem flags_loop_all_known :
    ∀ (ts : List (List Char)) (acc : SPPacketFIFOFlags),
      (∀ t ∈ ts, packet_fifo_known_token t = true) →
      packet_fifo_flags_loop ts acc = (0, acc.union (packet_fifo_tokens_flags ts)) := by
  intro ts
  induction ts with
  | nil =>
    intro acc _
    simp [packet_fifo_flags_loop, packet_fifo_tokens_flags, union_noFlags]
  | cons t rest ih =>
    intro acc hall
    have ht := hall t (List.mem_cons_self _ _)
    have hrest := fun u hu => hall u (List.mem_cons_of_mem _ hu)
    simp only [packet_fifo_known_token, Bool.or_eq_true, beq_iff_eq] at ht
    simp only [packet_fifo_tokens_flags, List.foldr_cons]
    rcases ht with (h | h) | h <;> subst h
    · rw [packet_fifo_flags_loop, if_pos rfl, ih _ hrest, set_bni, union_assoc]
      rw [packet_fifo_token_flag, if_pos rfl]
      rfl
    · rw [packet_fifo_flags_loop, if_neg (by decide), if_pos rfl, ih _ hrest,
        set_bmo, union_assoc]
      rw [packet_fifo_token_flag, if_neg (by decide), if_pos rfl]
      rfl
    · rw [packet_fifo_flags_loop, if_neg (by decide), if_neg (by decide), if_pos rfl,
        ih _ hrest, set_pnb, union_assoc]
      rw [packet_fifo_token_flag, if_neg (by decide), if_neg (by decide), if_pos rfl]
      rfl

/-- A token list containing an unrecognised name makes the loop return
`AVERROR(EINVAL)`. -/
theorem flags_loop_some_unknown :
    ∀ (ts : List (List Char)) (acc : SPPacketFIFOFlags),
      (∃ t ∈ ts, packet_fifo_known_token t = false) →
      (packet_fifo_flags_loop ts acc).1 = AVERROR_EINVAL := by
  intro ts
  induction ts with
  | nil =>
    rintro acc ⟨t, ht, -⟩
    exact absurd ht (List.not_mem_nil t)
  | cons t rest ih =>
    rintro acc ⟨u, hu, hku⟩
    by_cases hkt : packet_fifo_known_token t = true
    · have hurest : u ∈ rest := by
        rcases List.mem_cons.mp hu with h | h
        · subst h
          rw [hkt] at hku
          cases hku
        · exact h
      simp only [packet_fifo_known_token, Bool.or_eq_true, beq_iff_eq] at hkt
      rcases hkt with (h | h) | h <;> subst h
      · rw [packet_fifo_flags_loop, if_pos rfl]
        exact ih _ ⟨u, hurest, hku⟩
      · rw [packet_fifo_flags_loop, if_neg (by decide), if_pos rfl]
        exact ih _ ⟨u, hurest, hku⟩
      · rw [packet_fifo_flags_loop, if_neg (by decide), if_neg (by decide), if_pos rfl]
        exact ih _ ⟨u, hurest, hku⟩
    · simp only [packet_fifo_known_token, Bool.or_eq_true, beq_iff_eq, not_or] at hkt
      push_neg at hkt
      rw [packet_fifo_flags_loop, if_neg hkt.1.1, if_neg hkt.1.2, if_neg hkt.2]

theorem known_token_false {t : List Char} (h : packet_fifo_known_token t = false) :
    t ≠ "block_no_input".data ∧ t ≠ "block_max_output".data ∧ t ≠ "pull_no_block".data := by
  simp only [packet_fifo_known_token, Bool.or_eq_false_iff, beq_eq_false_iff_ne] at h
  exact ⟨h.1.1, h.1.2, h.2⟩

/-- The loop keeps the flags accumulated before the first unknown token. -/
theorem flags_loop_no_rollback :
    ∀ (pre : List (List Char)) (bad : List Char) (rest : List (List Char))
      (acc : SPPacketFIFOFlags),
      (∀ t ∈ pre, packet_fifo_known_token t = true) →
      packet_fifo_known_token bad = false →
      packet_fifo_flags_loop (pre ++ bad :: rest) acc
        = (AVERROR_EINVAL, acc.union (packet_fifo_tokens_flags pre)) := by
  intro pre
  induction pre with
  | nil =>
    intro bad rest acc _ hbad
    have hb := known_token_false hbad
    simp only [List.nil_append]
    rw [packet_fifo_flags_loop, if_neg hb.1, if_neg hb.2.1, if_neg hb.2.2]
    rw [packet_fifo_tokens_flags, List.foldr_nil, union_noFlags]
  | cons t pre ih =>
    intro bad rest acc hall hbad
    have ht := hall t (List.mem_cons_self _ _)
    have hpre := fun u hu => hall u (List.mem_cons_of_mem _ hu)
    simp only [packet_fifo_known_token, Bool.or_eq_true, beq_iff_eq] at ht
    simp only [List.cons_append]
    simp only [packet_fifo_tokens_flags, List.foldr_cons]
    rcases ht with (h | h) | h <;> subst h
    · rw [packet_fifo_flags_loop, if_pos rfl, ih bad rest _ hpre hbad, set_bni, union_assoc]
      rw [packet_fifo_token_flag, if_pos rfl]
      rfl
    · rw [packet_fifo_flags_loop, if_neg (by decide), if_pos rfl,
        ih bad rest _ hpre hbad, set_bmo, union_assoc]
      rw [packet_fifo_token_flag, if_neg (by decide), if_pos rfl]
      rfl
    · rw [packet_fifo_flags_loop, if_neg (by decide), if_neg (by decide), if_pos rfl,
        ih bad rest _ hpre hbad, set_pnb, union_assoc]
      rw [packet_fifo_token_flag, if_neg (by decide), if_neg (by decide), if_pos rfl]
      rfl

/-! ## Claim C5 — flag-string parsing -/

/-- C5: a comma-separated list made only of the lowercase tokens
`block_no_input`, `block_max_output`, `pull_no_block` parses to the union of
the corresponding flags with return value 0; any input whose token list
contains an unknown token returns `AVERROR(EINVAL)`.  Concretely,
`"block_no_input,pull_no_block"` yields exactly those two flags, and
`"bogus"` returns `AVERROR(EINVAL)`. -/
theorem string_to_block_flags_spec :
    (∀ (ts : List (List Char)) (acc : SPPacketFIFOFlags),
      (∀ t ∈ ts, packet_fifo_known_token t = true) →
      packet_fifo_flags_loop ts acc = (0, acc.union (packet_fifo_tokens_flags ts)))
    ∧ (∀ (ts : List (List Char)) (acc : SPPacketFIFOFlags),
      (∃ t ∈ ts, packet_fifo_known_token t = false) →
      (packet_fifo_flags_loop ts acc).1 = AVERROR_EINVAL)
    ∧ sp_packet_fifo_string_to_block_flags "block_no_input,pull_no_block"
        = (0, ⟨true, false, true, false⟩)
    ∧ sp_packet_fifo_string_to_block_flags "bogus" = (AVERROR_EINVAL, noFlags) :=
  ⟨flags_loop_all_known, flags_loop_some_unknown, by decide, by decide⟩

/-- Witness for C5. -/
theorem string_to_block_flags_spec_witness :
    packet_fifo_flags_loop ["block_max_output".data] noFlags
      = (0, noFlags.union (packet_fifo_tokens_flags ["block_max_output".data]))
    ∧ (packet_fifo_flags_loop ["nope".data] noFlags).1 = AVERROR_EINVAL :=
  ⟨string_to_block_flags_spec.1 ["block_max_output".data] noFlags (by decide),
   string_to_block_flags_spec.2.1 ["nope".data] noFlags ⟨"nope".data, by decide, by decide⟩⟩

/-! ## Claim C10 — no rollback on invalid input -/

/-- C10: when parsing fails on an unknown token, the output flag set is not
rolled back — it holds exactly the union of the flags of the valid tokens
preceding the first unknown one; `"block_no_input,bogus"` returns
`AVERROR(EINVAL)` with `BLOCK_NO_INPUT` set. -/
theorem string_to_block_flags_no_rollback :
    (∀ (pre : List (List Char)) (bad : List Char) (rest : List (List Char))
      (acc : SPPacketFIFOFlags),
      (∀ t ∈ pre, packet_fifo_known_token t = true) →
      packet_fifo_known_token bad = false →
      packet_fifo_flags_loop (pre ++ bad :: rest) acc
        = (AVERROR_EINVAL, acc.union (packet_fifo_tokens_flags pre)))
    ∧ sp_packet_fifo_string_to_block_flags "block_no_input,bogus"
        = (AVERROR_EINVAL, ⟨true, false, false, false⟩) :=
  ⟨flags_loop_no_rollback, by decide⟩

/-- Witness for C10. -/
theorem string_to_block_flags_no_rollback_witness :
    packet_fifo_flags_loop ["pull_no_block".data, "zzz".data, "block_no_input".data] noFlags
      = (AVERROR_EINVAL, noFlags.union (packet_fifo_tokens_flags ["pull_no_block".data])) :=
  string_to_block_flags_no_rollback.1 ["pull_no_block".data] "zzz".data
    ["block_no_input".data] noFlags (by decide) (by decide)

/-! ## Claim C6 — error propagation across fan-out -/

/-- With any starting `err`, an `AVERROR(ENOMEM)` result halts the loop
right there. -/
theorem distribute_err_oom :
    ∀ (pre : List Int) (post : List Int) (err : Int), AVERROR_ENOMEM ∉ pre →
      packet_fifo_distribute_err (pre ++ AVERROR_ENOMEM :: post) err
        = (AVERROR_ENOMEM, pre.length + 1) := by
  intro pre
  induction pre with
  | nil =>
    intro post err _
    simp only [List.nil_append]
    rw [packet_fifo_distribute_err, if_pos rfl]
    rfl
  | cons r pre ih =>
    intro post err hmem
    have hr : r ≠ AVERROR_ENOMEM := fun h => hmem (by rw [h]; exact List.mem_cons_self _ _)
    simp only [List.cons_append]
    rw [packet_fifo_distribute_err, if_neg hr,
      ih post (if r ≠ 0 ∧ err = 0 then r else err) (fun h => hmem (List.mem_cons_of_mem _ h))]
    simp [List.length_cons]

/-- Without out-of-memory, the loop visits every destination and ends with
the first non-zero result (or the incoming `err` if that was non-zero). -/
theorem distribute_err_no_oom :
    ∀ (rets : List Int) (err : Int), AVERROR_ENOMEM ∉ rets →
      packet_fifo_distribute_err rets err
        = ((if err = 0 then packet_fifo_first_error rets else err), rets.length) := by
  intro rets
  induction rets with
  | nil =>
    intro err _
    rw [packet_fifo_distribute_err]
    by_cases h : err = 0 <;> simp [packet_fifo_first_error, h]
  | cons r rest ih =>
    intro err hmem
    have hr : r ≠ AVERROR_ENOMEM := fun h => hmem (by rw [h]; exact List.mem_cons_self _ _)
    rw [packet_fifo_distribute_err, if_neg hr,
      ih _ (fun h => hmem (List.mem_cons_of_mem _ h))]
    by_cases hz : r = 0
    · subst hz
      have hfe0 : packet_fifo_first_error ((0 : Int) :: rest) = packet_fifo_first_error rest := by
        simp [packet_fifo_first_error]
      rw [hfe0]
      simp
    · have hfer : packet_fifo_first_error (r :: rest) = r := by
        simp only [packet_fifo_first_error]
        rw [List.find?_cons_of_pos _ (by simpa using hz)]
        rfl
      rw [hfer]
      by_cases he : err = 0 <;> simp [he, hz]

/-- C6: in the distribute loop, an out-of-memory result from a recursive
destination push halts the iteration and is returned at once (the remaining
destinations are not attempted, the table stays as the failing push left it);
any other error lets the iteration continue, recording the first non-zero
non-OOM error, which is the value returned after all destinations were
attempted.  The first two parts are stated for an arbitrary recursive push
function as the loop treats its result abstractly; the last two follow the
per-destination results of a whole loop run. -/
theorem push_error_propagation :
    (∀ (pushFn : FifoTable Nat → Nat → Option Nat → Int × FifoTable Nat)
        (w : FifoTable Nat) (d : Nat) (rest : List Nat) (item : Option Nat)
        (err : Int) (w' : FifoTable Nat),
      pushFn w d item = (AVERROR_ENOMEM, w') →
      packet_fifo_push_dests pushFn w (d :: rest) item err = (AVERROR_ENOMEM, w'))
    ∧ (∀ (pushFn : FifoTable Nat → Nat → Option Nat → Int × FifoTable Nat)
        (w : FifoTable Nat) (d : Nat) (rest : List Nat) (item : Option Nat)
        (err r : Int) (w' : FifoTable Nat),
      pushFn w d item = (r, w') → r ≠ AVERROR_ENOMEM →
      packet_fifo_push_dests pushFn w (d :: rest) item err
        = packet_fifo_push_dests pushFn w' rest item (if r ≠ 0 ∧ err = 0 then r else err))
    ∧ (∀ (pre post : List Int), AVERROR_ENOMEM ∉ pre →
      packet_fifo_distribute_err (pre ++ AVERROR_ENOMEM :: post) 0
        = (AVERROR_ENOMEM, pre.length + 1))
    ∧ (∀ rets : List Int, AVERROR_ENOMEM ∉ rets →
      packet_fifo_distribute_err rets 0 = (packet_fifo_first_error rets, rets.length)) :=
  ⟨fun pushFn w d rest item err w' h => push_dests_cons_oom pushFn w d rest item err w' h,
   fun pushFn w d rest item err r w' h hne => push_dests_cons pushFn w d rest item err r w' h hne,
   fun pre post h => distribute_err_oom pre post 0 h,
   fun rets h => by rw [distribute_err_no_oom rets 0 h, if_pos rfl]⟩

/-- Witness for C6: an OOM result halts a two-destination loop after one
attempt; queue-full then try-again results let it run to the end and return
queue-full, the first non-OOM error. -/
theorem push_error_propagation_witness :
    packet_fifo_push_dests (fun w _ _ => (AVERROR_ENOMEM, w)) [] [4, 5] (some 1) 0
      = (AVERROR_ENOMEM, [])
    ∧ packet_fifo_push_dests (fun w _ _ => (AVERROR_EAGAIN, w)) [] [4, 5] (some 1) 0
      = packet_fifo_push_dests (fun w _ _ => (AVERROR_EAGAIN, w)) [] [5] (some 1)
          (if AVERROR_EAGAIN ≠ 0 ∧ (0 : Int) = 0 then AVERROR_EAGAIN else 0)
    ∧ packet_fifo_distribute_err [AVERROR_ENOBUFS, AVERROR_ENOMEM, AVERROR_EAGAIN] 0
      = (AVERROR_ENOMEM, 2)
    ∧ packet_fifo_distribute_err [0, AVERROR_ENOBUFS, AVERROR_EAGAIN] 0
      = (AVERROR_ENOBUFS, 3) := by
  refine ⟨push_error_propagation.1 _ [] 4 [5] (some 1) 0 [] rfl,
    push_error_propagation.2.1 _ [] 4 [5] (some 1) 0 AVERROR_EAGAIN [] rfl (by decide),
    ?_, ?_⟩
  · have h := push_error_propagation.2.2.1 [AVERROR_ENOBUFS] [AVERROR_EAGAIN] (by decide)
    simpa using h
  · have h := push_error_propagation.2.2.2 [0, AVERROR_ENOBUFS, AVERROR_EAGAIN] (by decide)
    simpa [packet_fifo_first_error] using h
